import Mathlib

/-!
Shallow embedding of the core of the `gone` one-time secret sharing service:
the domain identifier functions, the TTL validator, the SQLite-backed index,
the filesystem blob backend, the composite store, and the application service.

Conventions of the embedding:
* Go strings are byte lists (`GoStr`); the identifier validation of
  `internal/domain/id.go` iterates over bytes.
* Instants are integers at seconds granularity (the index schema persists
  `created_at` / `expires_at` as Unix seconds).  The timeline origin is the
  Go zero `time.Time` (January 1, year 1), so `IsZero` is `= 0` and
  `Time.Unix(u, 0)` is `u + unixToInternal`.
* Durations are integers at the same granularity.
* Readers are byte lists; `io.ReadFull` / `io.CopyN` succeed exactly when the
  list supplies at least the requested count.
* The SQLite table keyed on `id` is an association list; `DELETE ... WHERE id=?`
  removes every entry with that key, `INSERT` fails on a present key
  (primary key constraint).
* Stateful operations return a `(result, state)` pair so that side effects on
  error paths (the hard delete inside index consume, partial-file removal)
  stay observable.
-/

namespace Gone

/-- Go strings, viewed as byte sequences. -/
abbrev GoStr := List Nat

/-- Error kinds surfaced by the embedded operations. -/
inductive Err where
  | notFound
  | ttlInvalid
  | sizeExceeded
  | invalidID
  | invalidBlobID
  | duplicateKey
  | blobExists
  | shortRead
  | negativeSize
  | missingBlob
deriving DecidableEq, Repr

/-- Per-secret encryption metadata (`app.Meta`). -/
structure Meta where
  version : Nat
  nonceB64u : GoStr
deriving DecidableEq, Repr

/-- Seconds between the Go zero time (year 1) and the Unix epoch. -/
def unixToInternal : Int := 62135596800

/-- Embeds `time.Unix(u, 0)`: timeline instant of a Unix-seconds value. -/
def unixTime (u : Int) : Int := u + unixToInternal

/-- Embeds `t.Unix()`: Unix-seconds value of a timeline instant. -/
def toUnix (t : Int) : Int := t - unixToInternal

/-- Embeds `t.IsZero()`: the Go zero time is the timeline origin. -/
def timeIsZero (t : Int) : Bool := t == 0

/-- Embeds `expired` from the composite store: the zero time never expires, any
other instant is expired once `now.After(expiresAt) || now.Equal(expiresAt)`. -/
def expired (now expiresAt : Int) : Bool :=
  if timeIsZero expiresAt then false
  else decide (now > expiresAt) || decide (now = expiresAt)

/-- One row of the `secrets` table (`inline` is a nullable BLOB). -/
structure Row where
  meta : Meta
  inline : Option (List Nat)
  external : Bool
  size : Int
  createdAtUnix : Int
  expiresAtUnix : Int
deriving DecidableEq, Repr

/-- The index table: an association list keyed by secret id. -/
abbrev IndexState := List (GoStr × Row)

/-- The blob directory: an association list from id to file contents. -/
abbrev BlobState := List (GoStr × List Nat)

/-- First value bound to a key (SQL row lookup by primary key). -/
def alookup {α : Type} : List (GoStr × α) → GoStr → Option α
  | [], _ => none
  | (k, v) :: rest, id => if k = id then some v else alookup rest id

/-- Remove every entry with the given key (`DELETE ... WHERE id=?`). -/
def aerase {α : Type} (l : List (GoStr × α)) (id : GoStr) : List (GoStr × α) :=
  l.filter (fun p => decide (p.1 ≠ id))

/-- Data returned by `Index.Consume` (`store.IndexResult`); `expiresAt` is the
timeline instant recovered through `time.Unix(expiresUnix, 0)`. -/
structure IndexResult where
  meta : Meta
  inline : Option (List Nat)
  external : Bool
  size : Int
  expiresAt : Int
deriving DecidableEq, Repr

/-- Cleanup record returned by the expiry sweep (`store.ExpiredRecord`). -/
structure ExpiredRecord where
  id : GoStr
  external : Bool
deriving DecidableEq, Repr

namespace Index

/-- Embeds `Index.Insert`: a present primary key makes the INSERT fail. -/
def insert (idx : IndexState) (id : GoStr) (row : Row) : Except Err IndexState :=
  if (alookup idx id).isSome then .error .duplicateKey
  else .ok ((id, row) :: idx)

/-- Embeds `Index.Consume`: hard-delete the row and return its data; expiration is
not interpreted here. -/
def consume (idx : IndexState) (id : GoStr) : Except Err (IndexResult × IndexState) :=
  match alookup idx id with
  | none => .error .notFound
  | some row =>
      .ok (⟨row.meta, row.inline, row.external, row.size, unixTime row.expiresAtUnix⟩,
           aerase idx id)

/-- Embeds `Index.ExpireBefore`: select rows with `expires_at < t.Unix()`, delete the
same rows in one transaction, and return their cleanup records. -/
def expireBefore (idx : IndexState) (t : Int) : List ExpiredRecord × IndexState :=
  ( (idx.filter (fun p => decide (p.2.expiresAtUnix < toUnix t))).map
      (fun p => ⟨p.1, p.2.external⟩)
  , idx.filter (fun p => decide (¬ p.2.expiresAtUnix < toUnix t)) )

end Index

/-- Embeds `isValidID` from `internal/domain/id.go`: byte in `[0-9]` or `[a-f]`. -/
def validIDByte (c : Nat) : Bool :=
  (48 ≤ c && c ≤ 57) || (97 ≤ c && c ≤ 102)

/-- Embeds `isValidID`: length 32 and every byte a lowercase hex digit. -/
def isValidID (s : GoStr) : Bool :=
  s.length == 32 && s.all validIDByte

/-- Embeds `domain.ParseID`. -/
def parseID (s : GoStr) : Except Err GoStr :=
  if isValidID s then .ok s else .error .invalidID

/-- Embeds `SecretID.Valid`. -/
def secretIDValid (s : GoStr) : Bool := isValidID s

/-- One nibble of `encoding/hex`'s table `"0123456789abcdef"`. -/
def hexDigit (n : Nat) : Nat := if n < 10 then 48 + n else 87 + n

/-- Embeds `hex.Encode` over a byte list: high nibble then low nibble per byte. -/
def hexEncode : List Nat → GoStr
  | [] => []
  | b :: bs => hexDigit (b / 16) :: hexDigit (b % 16) :: hexEncode bs

namespace Blob

/-- Embeds `BlobStore.Write`: validate the id, create exclusively, then
`io.CopyN(f, r, size)`.  CopyN errors exactly when it copies fewer than
`size` bytes, which for a byte-list reader means `size > len(r)`; a
non-positive `size` copies nothing and SUCCEEDS (`written = 0` is not
`< size`), leaving an empty file.  On any error no partial file remains. -/
def write (bs : BlobState) (id : GoStr) (r : List Nat) (size : Int) :
    Except Err Unit × BlobState :=
  if ¬ isValidID id then (.error .invalidBlobID, bs)
  else if (alookup bs id).isSome then (.error .blobExists, bs)
  else if size ≤ (r.length : Int) then (.ok (), (id, r.take size.toNat) :: bs)
  else (.error .shortRead, bs)

/-- Embeds `BlobStore.Consume`: open for reading; the delete-on-close reader is
modelled as returning the contents with the file removed. -/
def consume (bs : BlobState) (id : GoStr) : Except Err (List Nat) × BlobState :=
  if ¬ isValidID id then (.error .invalidBlobID, bs)
  else
    match alookup bs id with
    | none => (.error .missingBlob, bs)
    | some f => (.ok f, aerase bs id)

/-- Embeds `BlobStore.Delete`: empty id is a no-op; a missing file is an error. -/
def delete (bs : BlobState) (id : GoStr) : Except Err Unit × BlobState :=
  if id = [] then (.ok (), bs)
  else if ¬ isValidID id then (.error .invalidBlobID, bs)
  else
    match alookup bs id with
    | none => (.error .missingBlob, bs)
    | some _ => (.ok (), aerase bs id)

end Blob

/-- The composite store's state: the index table plus the blob directory. -/
structure StoreState where
  index : IndexState
  blobs : BlobState
deriving DecidableEq, Repr

namespace Store

/-- Embeds `Store.Save`: reject negative size, inline payloads of at most
`inlineMax` bytes (`io.ReadFull` short read fails), write larger payloads to
blob storage before inserting the index row.  A blob written before a failing
insert stays behind as an orphan. -/
def save (inlineMax : Int) (st : StoreState) (id : GoStr) (meta : Meta)
    (r : List Nat) (size : Int) (now expiresAt : Int) : Except Err Unit × StoreState :=
  if size < 0 then (.error .negativeSize, st)
  else if size ≤ inlineMax then
    if size ≤ (r.length : Int) then
      match Index.insert st.index id
          ⟨meta, some (r.take size.toNat), false, size, toUnix now, toUnix expiresAt⟩ with
      | .ok idx2 => (.ok (), { st with index := idx2 })
      | .error e => (.error e, st)
    else (.error .shortRead, st)
  else
    let wr := Blob.write st.blobs id r size
    match wr.1 with
    | .error e => (.error e, { st with blobs := wr.2 })
    | .ok _ =>
      match Index.insert st.index id
          ⟨meta, none, true, size, toUnix now, toUnix expiresAt⟩ with
      | .ok idx2 => (.ok (), { index := idx2, blobs := wr.2 })
      | .error e => (.error e, { st with blobs := wr.2 })

/-- Embeds `Store.buildConsumeResult`: external payloads stream through the
delete-on-close blob reader; inline payloads come back with
`int64(len(res.Inline))` as the size (`nil` reads as empty). -/
def buildConsumeResult (st : StoreState) (id : GoStr) (res : IndexResult) :
    Except Err (Meta × List Nat × Int) × StoreState :=
  if res.external then
    let pr := Blob.consume st.blobs id
    match pr.1 with
    | .error e => (.error e, { st with blobs := pr.2 })
    | .ok bytes => (.ok (res.meta, bytes, res.size), { st with blobs := pr.2 })
  else
    let b := res.inline.getD []
    (.ok (res.meta, b, (b.length : Int)), st)

/-- Embeds `Store.Consume`: hard-delete via the index, then interpret expiry; an
expired row surfaces `NotFound` with the row already gone. -/
def consume (st : StoreState) (id : GoStr) (now : Int) :
    Except Err (Meta × List Nat × Int) × StoreState :=
  match Index.consume st.index id with
  | .error e => (.error e, st)
  | .ok (res, idx2) =>
    let st2 : StoreState := { st with index := idx2 }
    if expired now res.expiresAt then (.error .notFound, st2)
    else buildConsumeResult st2 id res

/-- Embeds `Store.DeleteExpired`: sweep the index, best-effort delete the external
blobs (errors ignored), return the count of removed records. -/
def deleteExpired (st : StoreState) (t : Int) : Except Err Nat × StoreState :=
  let pr := Index.expireBefore st.index t
  let bs2 := pr.1.foldl
    (fun bs rec => if rec.external then (Blob.delete bs rec.id).2 else bs) st.blobs
  (.ok pr.1.length, { index := pr.2, blobs := bs2 })

end Store

/-- Embeds `domain.ValidateTTL`: positive and within `[minTTL, maxTTL]`,
unconditionally. -/
def validateTTL (ttl minTTL maxTTL : Int) : Except Err Unit :=
  if ttl ≤ 0 then .error .ttlInvalid
  else if ttl < minTTL then .error .ttlInvalid
  else if ttl > maxTTL then .error .ttlInvalid
  else .ok ()

/-- Scalar configuration of `app.Service` plus the store's inline threshold. -/
structure Service where
  maxBytes : Int
  minTTL : Int
  maxTTL : Int
  inlineMax : Int
deriving DecidableEq, Repr

/-- Embeds `Service.CreateSecret`: TTL validation, then size validation, then mint an
id (the random id is a parameter of the embedding), compute
`expiresAt = now + ttl` and delegate to `Store.Save`. -/
def Service.createSecret (svc : Service) (st : StoreState) (ct : List Nat)
    (size : Int) (version : Nat) (nonce : GoStr) (ttl : Int)
    (mintedId : GoStr) (now : Int) : Except Err (GoStr × Int) × StoreState :=
  match validateTTL ttl svc.minTTL svc.maxTTL with
  | .error _ => (.error .ttlInvalid, st)
  | .ok _ =>
    if size ≤ 0 ∨ size > svc.maxBytes then (.error .sizeExceeded, st)
    else
      let expiresAt := now + ttl
      match Store.save svc.inlineMax st mintedId ⟨version, nonce⟩ ct size now expiresAt with
      | (.ok _, st2) => (.ok (mintedId, expiresAt), st2)
      | (.error e, st2) => (.error e, st2)

/-- Keys of the index table are pairwise distinct (the primary key
constraint; every state reachable through `Index.insert` satisfies it). -/
def KeysNodup (idx : IndexState) : Prop := (idx.map Prod.fst).Nodup

instance (idx : IndexState) : Decidable (KeysNodup idx) := by
  unfold KeysNodup; infer_instance

/-- View of `Except` as a sum, to derive decidable equality. -/
def exceptToSum {ε α : Type} : Except ε α → ε ⊕ α
  | .error e => .inl e
  | .ok a => .inr a

instance {ε α : Type} [DecidableEq ε] [DecidableEq α] : DecidableEq (Except ε α) := fun a b =>
  decidable_of_iff (exceptToSum a = exceptToSum b)
    (by cases a <;> cases b <;> simp [exceptToSum])

/-! ### Association-list helper lemmas -/

theorem alookup_cons {α : Type} (k : GoStr) (v : α) (l : List (GoStr × α)) (id : GoStr) :
    alookup ((k, v) :: l) id = if k = id then some v else alookup l id := rfl

theorem alookup_aerase_self {α : Type} (l : List (GoStr × α)) (id : GoStr) :
    alookup (aerase l id) id = none := by
  induction l with
  | nil => rfl
  | cons p rest ih =>
    obtain ⟨k, v⟩ := p
    by_cases hk : k = id
    · simpa [aerase, List.filter_cons, hk] using ih
    · simpa [aerase, List.filter_cons, hk, alookup_cons] using ih

theorem mem_of_alookup {α : Type} {l : List (GoStr × α)} {id : GoStr} {v : α}
    (h : alookup l id = some v) : (id, v) ∈ l := by
  induction l with
  | nil => simp [alookup] at h
  | cons p rest ih =>
    obtain ⟨k, w⟩ := p
    by_cases hk : k = id
    · subst hk
      rw [alookup_cons, if_pos rfl] at h
      obtain rfl : w = v := by injection h
      exact List.mem_cons_self _ _
    · simp only [alookup_cons, if_neg hk] at h
      exact List.mem_cons_of_mem _ (ih h)

theorem keysNodup_unique {idx : IndexState} (hnd : KeysNodup idx) {k : GoStr} {a b : Row}
    (ha : (k, a) ∈ idx) (hb : (k, b) ∈ idx) : a = b := by
  induction idx with
  | nil => simp at ha
  | cons p rest ih =>
    obtain ⟨k0, v0⟩ := p
    have hnd2 : KeysNodup rest := (List.nodup_cons.mp hnd).2
    have hk0 : k0 ∉ rest.map Prod.fst := (List.nodup_cons.mp hnd).1
    rcases List.mem_cons.mp ha with h1 | h1
    · rcases List.mem_cons.mp hb with h2 | h2
      · rw [Prod.mk.injEq] at h1 h2
        rw [h1.2, h2.2]
      · exfalso
        apply hk0
        rw [Prod.mk.injEq] at h1
        have hm : k ∈ rest.map Prod.fst := List.mem_map.mpr ⟨(k, b), h2, rfl⟩
        rwa [h1.1] at hm
    · rcases List.mem_cons.mp hb with h2 | h2
      · exfalso
        apply hk0
        rw [Prod.mk.injEq] at h2
        have hm : k ∈ rest.map Prod.fst := List.mem_map.mpr ⟨(k, a), h1, rfl⟩
        rwa [h2.1] at hm
      · exact ih hnd2 h1 h2

/-- Running `Store.Consume` on an absent id: `NotFound`, state untouched. -/
theorem store_consume_absent (st : StoreState) (id : GoStr) (now : Int)
    (h : alookup st.index id = none) :
    Store.consume st id now = (.error .notFound, st) := by
  unfold Store.consume Index.consume
  rw [h]

/-- Lemma: `Store.buildConsumeResult` never touches the index. -/
theorem buildConsumeResult_index (st : StoreState) (id : GoStr) (res : IndexResult) :
    (Store.buildConsumeResult st id res).2.index = st.index := by
  unfold Store.buildConsumeResult
  split
  · cases h : (Blob.consume st.blobs id).1 <;> simp [h]
  · rfl

/-- A successful `Store.Consume` leaves the index with the id hard-deleted. -/
theorem store_consume_ok_index {st : StoreState} {id : GoStr} {now : Int}
    {out : Meta × List Nat × Int} {st2 : StoreState}
    (h : Store.consume st id now = (.ok out, st2)) :
    st2.index = aerase st.index id := by
  unfold Store.consume at h
  cases halk : alookup st.index id with
  | none =>
    unfold Index.consume at h
    rw [halk] at h
    exact absurd (congrArg Prod.fst h) (by simp)
  | some row =>
    unfold Index.consume at h
    rw [halk] at h
    dsimp only at h
    split at h
    · exact absurd (congrArg Prod.fst h) (by simp)
    · have h2 := congrArg Prod.snd h
      dsimp only at h2
      rw [← h2, buildConsumeResult_index]

/-- Unix-seconds persistence round-trips exactly at seconds granularity. -/
theorem unixTime_toUnix (t : Int) : unixTime (toUnix t) = t := by
  unfold unixTime toUnix; ring

/-- A consume strictly before the expiry instant is never expired. -/
theorem expired_false_of_lt {now expAt : Int} (h : now < expAt) :
    expired now expAt = false := by
  unfold expired timeIsZero
  split
  · rfl
  · have h1 : ¬ now > expAt := lt_asymm h
    have h2 : now ≠ expAt := ne_of_lt h
    simp [h1, h2]

/-! ### Sample data for concrete evaluations -/

/-- A canonical valid id: 32 bytes of the letter a. -/
def sampleId : GoStr := List.replicate 32 97

/-- An inline sample row expiring at timeline instant 100. -/
def sampleRow : Row := ⟨⟨1, [110]⟩, some [7], false, 1, toUnix 10, toUnix 100⟩

/-- A one-secret store state. -/
def sampleState : StoreState := ⟨[(sampleId, sampleRow)], []⟩

/-! ### Claims -/

/-- C1: at-most-once delivery.  After a successful `Store.Consume(id)` — or
after a `DeleteExpired(t)` sweep whose removed records include `id` — every
subsequent `Store.Consume(id)` returns `NotFound`: the index consume
hard-deletes the row in the same step that returns its data. -/
theorem no_resurrection :
    (∀ (st : StoreState) (id : GoStr) (now : Int) (out : Meta × List Nat × Int)
        (st2 : StoreState), Store.consume st id now = (.ok out, st2) →
        ∀ now2 : Int, (Store.consume st2 id now2).1 = .error .notFound) ∧
    (∀ (st : StoreState) (t : Int) (id : GoStr) (now : Int), KeysNodup st.index →
        (∃ er ∈ (Index.expireBefore st.index t).1, er.id = id) →
        (Store.consume (Store.deleteExpired st t).2 id now).1 = .error .notFound) := by
  constructor
  · intro st id now out st2 h now2
    have hidx := store_consume_ok_index h
    have habs : alookup st2.index id = none := by
      rw [hidx]; exact alookup_aerase_self _ _
    rw [store_consume_absent st2 id now2 habs]
  · rintro st t sid now hnd ⟨er, her, hid⟩
    obtain ⟨q, hq, hqe⟩ := List.mem_map.mp her
    obtain ⟨qk, qr⟩ := q
    have hqk : qk = sid := by
      have h1 := congrArg ExpiredRecord.id hqe
      simpa [hid] using h1
    subst hqk
    have hq2 := List.mem_filter.mp hq
    have hexp : qr.expiresAtUnix < toUnix t := by simpa using hq2.2
    have habs : alookup (Store.deleteExpired st t).2.index qk = none := by
      show alookup (st.index.filter fun p => decide (¬ p.2.expiresAtUnix < toUnix t)) qk = none
      cases halk : alookup
          (st.index.filter fun p => decide (¬ p.2.expiresAtUnix < toUnix t)) qk with
      | none => rfl
      | some v =>
        exfalso
        have hv := List.mem_filter.mp (mem_of_alookup halk)
        have heq : qr = v := keysNodup_unique hnd hq2.1 hv.1
        have hnexp : ¬ v.expiresAtUnix < toUnix t := by simpa using hv.2
        rw [← heq] at hnexp
        exact hnexp hexp
    exact congrArg Prod.fst (store_consume_absent _ qk now habs)

/-- C1 witness: a concrete consumed secret and a concrete swept secret are
both gone afterwards. -/
theorem no_resurrection_witness :
    (Store.consume (Store.consume sampleState sampleId 20).2 sampleId 21).1
        = .error .notFound ∧
    (Store.consume (Store.deleteExpired sampleState 200).2 sampleId 5).1
        = .error .notFound :=
  ⟨no_resurrection.1 sampleState sampleId 20 ⟨⟨1, [110]⟩, [7], 1⟩
      (Store.consume sampleState sampleId 20).2 (by decide) 21,
   no_resurrection.2 sampleState 200 sampleId 5 (by decide)
      ⟨⟨sampleId, false⟩, by decide, rfl⟩⟩

/-- C2: round-trip fidelity.  For a fresh id and a payload with
`0 < len(payload) ≤ maxBytes`, `Store.Save` succeeds and a `Store.Consume`
strictly before `expiresAt` returns exactly the saved meta, exactly the
payload bytes, and the declared size — the placement branch (inline versus
external) is decided inside `save` by `inlineMax` and both branches are
covered by the unconstrained `inlineMax`. -/
theorem round_trip_fidelity :
    ∀ (inlineMax maxBytes : Int) (st : StoreState) (id : GoStr) (meta : Meta)
      (payload : List Nat) (size : Int) (now expAt now2 : Int),
      size = (payload.length : Int) → 0 < size → size ≤ maxBytes →
      alookup st.index id = none → isValidID id = true →
      alookup st.blobs id = none → now2 < expAt →
      (Store.save inlineMax st id meta payload size now expAt).1 = .ok () ∧
      (Store.consume (Store.save inlineMax st id meta payload size now expAt).2
          id now2).1 = .ok (meta, payload, size) := by
  intro inlineMax maxBytes st id meta payload size now expAt now2
    hsz hpos hmax hfreshi hvalid hfreshb hlt
  have hnneg : ¬ size < 0 := not_lt.mpr (le_of_lt hpos)
  have hle : size ≤ (payload.length : Int) := le_of_eq hsz
  have htake : payload.take size.toNat = payload := by
    rw [hsz]
    simp
  have hexp : expired now2 (unixTime (toUnix expAt)) = false := by
    rw [unixTime_toUnix]
    exact expired_false_of_lt hlt
  by_cases hin : size ≤ inlineMax
  · have hsave : Store.save inlineMax st id meta payload size now expAt =
        (.ok (), { st with index :=
          (id, ⟨meta, some payload, false, size, toUnix now, toUnix expAt⟩) :: st.index }) := by
      unfold Store.save Index.insert
      rw [if_neg hnneg, if_pos hin, if_pos hle, hfreshi]
      simp [htake]
    rw [hsave]
    refine ⟨rfl, ?_⟩
    unfold Store.consume Index.consume
    rw [alookup_cons, if_pos rfl]
    dsimp only
    rw [hexp]
    unfold Store.buildConsumeResult
    simp [hsz]
  · have hsave : Store.save inlineMax st id meta payload size now expAt =
        (.ok (),
          { index := (id, ⟨meta, none, true, size, toUnix now, toUnix expAt⟩) :: st.index,
            blobs := (id, payload) :: st.blobs }) := by
      unfold Store.save Blob.write Index.insert
      rw [if_neg hnneg, if_neg hin]
      simp [hvalid, hfreshb, hfreshi, hle, le_of_lt hpos, htake]
    rw [hsave]
    refine ⟨rfl, ?_⟩
    unfold Store.consume Index.consume
    rw [alookup_cons, if_pos rfl]
    dsimp only
    rw [hexp]
    unfold Store.buildConsumeResult Blob.consume
    simp [hvalid, alookup_cons]

/-- C2 witness: a concrete inline save/consume round-trip. -/
theorem round_trip_fidelity_witness :
    (Store.save 4 ⟨[], []⟩ sampleId ⟨1, [110]⟩ [5, 6] 2 10 50).1 = .ok () ∧
    (Store.consume (Store.save 4 ⟨[], []⟩ sampleId ⟨1, [110]⟩ [5, 6] 2 10 50).2
        sampleId 20).1 = .ok (⟨1, [110]⟩, [5, 6], 2) :=
  round_trip_fidelity 4 100 ⟨[], []⟩ sampleId ⟨1, [110]⟩ [5, 6] 2 10 50 20
    (by decide) (by decide) (by decide) rfl (by decide) rfl (by decide)

/-- A row whose stored expiry is the Go zero time. -/
def zeroRow : Row := ⟨⟨1, [110]⟩, some [7], false, 1, toUnix 10, toUnix 0⟩

/-- A store state holding only the zero-expiry row. -/
def zeroState : StoreState := ⟨[(sampleId, zeroRow)], []⟩

/-- C3 counterexample: a record whose recovered `expiresAt` is the zero time
satisfies `now ≥ expiresAt` at `now = 5`, yet `Store.Consume` returns the
payload instead of `NotFound` — the `IsZero` carve-out in `expired` defeats
the claim as stated. -/
theorem expired_consume_zero_counterexample :
    (5 : Int) ≥ unixTime zeroRow.expiresAtUnix ∧
    (Store.consume zeroState sampleId 5).1 = .ok (⟨1, [110]⟩, [7], 1) := by
  decide

/-- C3 (amended): for every record whose `expiresAt` is NOT the zero time,
a consume at `now ≥ expiresAt` (including `now = expiresAt` exactly) returns
`NotFound`, and the index row is deleted as a side effect of the call. -/
theorem expired_consume_notFound :
    ∀ (st : StoreState) (id : GoStr) (now : Int) (row : Row),
      alookup st.index id = some row →
      unixTime row.expiresAtUnix ≠ 0 →
      now ≥ unixTime row.expiresAtUnix →
      (Store.consume st id now).1 = .error .notFound ∧
      alookup (Store.consume st id now).2.index id = none := by
  intro st id now row halk hnz hge
  have hexp : expired now (unixTime row.expiresAtUnix) = true := by
    unfold expired timeIsZero
    rw [if_neg (by simpa using hnz)]
    rcases eq_or_lt_of_le hge with h | h
    · simp [h.symm]
    · simp [h]
  unfold Store.consume Index.consume
  rw [halk]
  dsimp only
  rw [if_pos hexp]
  exact ⟨rfl, alookup_aerase_self _ _⟩

/-- C3 witness: consuming the sample secret exactly at its expiry instant
fails with `NotFound` and removes the row. -/
theorem expired_consume_notFound_witness :
    (Store.consume sampleState sampleId 100).1 = .error .notFound ∧
    alookup (Store.consume sampleState sampleId 100).2.index sampleId = none :=
  expired_consume_notFound sampleState sampleId 100 sampleRow
    (by decide) (by decide) (by decide)

/-- C10: zero-expiry carve-out.  A record whose recovered `expiresAt` is the
zero time is treated as never expired: `Store.Consume` succeeds for every
value of `clock.Now()` (provided the payload is reachable: inline, or
external with the blob present). -/
theorem zero_expiry_never_expires :
    ∀ (st : StoreState) (id : GoStr) (row : Row) (now : Int),
      alookup st.index id = some row →
      unixTime row.expiresAtUnix = 0 →
      (row.external = false ∨
        (isValidID id = true ∧ (alookup st.blobs id).isSome = true)) →
      ∃ out, (Store.consume st id now).1 = .ok out := by
  intro st id row now halk hz hcase
  unfold Store.consume Index.consume
  rw [halk]
  dsimp only
  rw [hz]
  have hexp : expired now 0 = false := rfl
  rw [if_neg (by simp [hexp])]
  unfold Store.buildConsumeResult Blob.consume
  by_cases hext : row.external
  · rcases hcase with hfalse | ⟨hval, hblob⟩
    · simp [hfalse] at hext
    · obtain ⟨f, hf⟩ := Option.isSome_iff_exists.mp hblob
      simp [hext, hval, hf]
  · simp [hext]

/-- C10 witness: the zero-expiry sample secret is consumable at a huge now. -/
theorem zero_expiry_never_expires_witness :
    ∃ out, (Store.consume zeroState sampleId 999999).1 = .ok out :=
  zero_expiry_never_expires zeroState sampleId zeroRow 999999
    (by decide) (by decide) (Or.inl rfl)

/-- A filter and its complement partition a list's length. -/
theorem filter_partition_length {α : Type} (p : α → Bool) (l : List α) :
    (l.filter p).length + (l.filter (fun a => !(p a))).length = l.length := by
  induction l with
  | nil => rfl
  | cons a rest ih =>
    by_cases h : p a = true
    · simp [List.filter_cons, h]
      omega
    · simp [List.filter_cons, h]
      omega

/-- The sweep's removed and retained rows partition the index. -/
theorem expireBefore_partition_length (idx : IndexState) (t : Int) :
    (Index.expireBefore idx t).1.length + (Index.expireBefore idx t).2.length
      = idx.length := by
  have hpred : (fun q : GoStr × Row => decide (¬ q.2.expiresAtUnix < toUnix t)) =
      (fun q : GoStr × Row => !decide (q.2.expiresAtUnix < toUnix t)) := by
    funext q
    exact decide_not
  unfold Index.expireBefore
  dsimp only
  rw [List.length_map, hpred]
  exact filter_partition_length _ idx

/-- C4: the expiry sweep uses strict inequality.  A row survives
`ExpireBefore(t)` exactly when it was present with `expiresAt ≥ t` (so a row
with `expiresAt = t` is retained unchanged); the returned cleanup records are
exactly one `(id, external)` pair per removed row; `Store.DeleteExpired`
returns the number of removed records. -/
theorem expire_before_strict :
    (∀ (idx : IndexState) (t : Int) (id : GoStr) (row : Row),
        (id, row) ∈ (Index.expireBefore idx t).2 ↔
          (id, row) ∈ idx ∧ row.expiresAtUnix ≥ toUnix t) ∧
    (∀ (idx : IndexState) (t : Int) (er : ExpiredRecord),
        er ∈ (Index.expireBefore idx t).1 ↔
          ∃ row, (er.id, row) ∈ idx ∧ row.expiresAtUnix < toUnix t ∧
            er.external = row.external) ∧
    (∀ (idx : IndexState) (t : Int),
        (Index.expireBefore idx t).1.length + (Index.expireBefore idx t).2.length
          = idx.length) ∧
    (∀ (st : StoreState) (t : Int),
        (Store.deleteExpired st t).1 =
          .ok (st.index.length - (Store.deleteExpired st t).2.index.length)) := by
  refine ⟨?_, ?_, expireBefore_partition_length, ?_⟩
  · intro idx t id row
    constructor
    · intro h
      have h2 := List.mem_filter.mp h
      exact ⟨h2.1, by simpa [not_lt] using h2.2⟩
    · rintro ⟨hmem, hge⟩
      exact List.mem_filter.mpr ⟨hmem, by simpa [not_lt] using hge⟩
  · intro idx t er
    constructor
    · intro h
      obtain ⟨q, hq, hqe⟩ := List.mem_map.mp h
      have hq2 := List.mem_filter.mp hq
      have hid : er.id = q.1 := by rw [← hqe]
      refine ⟨q.2, ?_, by simpa using hq2.2, by rw [← hqe]⟩
      rw [hid]
      simpa using hq2.1
    · rintro ⟨row, hmem, hlt, hext⟩
      refine List.mem_map.mpr
        ⟨(er.id, row), List.mem_filter.mpr ⟨hmem, by simpa using hlt⟩, ?_⟩
      rw [show (⟨er.id, row.external⟩ : ExpiredRecord) = ⟨er.id, er.external⟩ from by
        rw [hext]]
  · intro st t
    have h := expireBefore_partition_length st.index t
    show (Except.ok (Index.expireBefore st.index t).1.length : Except Err Nat) =
      .ok (st.index.length - (Index.expireBefore st.index t).2.length)
    congr 1
    omega

/-- C4 witness: the sample row with `expiresAt = t` survives the sweep at
exactly its expiry, and the concrete sweep count matches the removed rows. -/
theorem expire_before_strict_witness :
    (sampleId, sampleRow) ∈ (Index.expireBefore sampleState.index 100).2 ∧
    (Store.deleteExpired sampleState 200).1 =
      .ok (sampleState.index.length - (Store.deleteExpired sampleState 200).2.index.length) :=
  ⟨(expire_before_strict.1 sampleState.index 100 sampleId sampleRow).mpr
      ⟨by decide, by decide⟩,
   expire_before_strict.2.2.2 sampleState 200⟩

/-- Lemma: `Index.insert` either prepends a fresh row or reports the duplicate key. -/
theorem index_insert_cases (idx : IndexState) (id : GoStr) (row : Row) :
    Index.insert idx id row = .ok ((id, row) :: idx) ∨
    Index.insert idx id row = .error .duplicateKey := by
  unfold Index.insert
  by_cases h : (alookup idx id).isSome = true
  · rw [if_pos h]; right; rfl
  · rw [if_neg h]; left; rfl

/-- The possible outcomes of `Blob.write`. -/
theorem blob_write_fst_cases (bs : BlobState) (id : GoStr) (r : List Nat) (size : Int) :
    (Blob.write bs id r size).1 = .ok () ∨
    (Blob.write bs id r size).1 = .error .invalidBlobID ∨
    (Blob.write bs id r size).1 = .error .blobExists ∨
    (Blob.write bs id r size).1 = .error .shortRead := by
  unfold Blob.write
  by_cases h1 : ¬ isValidID id
  · rw [if_pos h1]; right; left; rfl
  · rw [if_neg h1]
    by_cases h2 : (alookup bs id).isSome = true
    · rw [if_pos h2]; right; right; left; rfl
    · rw [if_neg h2]
      by_cases h3 : size ≤ (r.length : Int)
      · rw [if_pos h3]; left; rfl
      · rw [if_neg h3]; right; right; right; rfl

/-- The empty store. -/
def stEmpty : StoreState := ⟨[], []⟩

/-- C5: placement policy.  `Store.Save` rejects `size < 0` with an error
before touching storage; after a successful save the stored row is inline
(bytes present, `external = false`, blob directory untouched) exactly when
`size ≤ inlineMax`, and external (no inline bytes, `external = true`, blob
written under the same id) exactly when `size > inlineMax`. -/
theorem placement_policy :
    ∀ (inlineMax : Int) (st : StoreState) (id : GoStr) (meta : Meta)
      (r : List Nat) (size : Int) (now expAt : Int),
      (size < 0 →
        Store.save inlineMax st id meta r size now expAt = (.error .negativeSize, st)) ∧
      ((Store.save inlineMax st id meta r size now expAt).1 = .ok () →
        ∃ row, alookup (Store.save inlineMax st id meta r size now expAt).2.index id
            = some row ∧
          row.external = decide (size > inlineMax) ∧
          (size ≤ inlineMax → row.inline = some (r.take size.toNat) ∧
            (Store.save inlineMax st id meta r size now expAt).2.blobs = st.blobs) ∧
          (size > inlineMax → row.inline = none ∧
            alookup (Store.save inlineMax st id meta r size now expAt).2.blobs id
              = some (r.take size.toNat))) := by
  intro inlineMax st id meta r size now expAt
  constructor
  · intro hneg
    unfold Store.save
    rw [if_pos hneg]
  · intro h
    unfold Store.save at h ⊢
    by_cases hneg : size < 0
    · rw [if_pos hneg] at h; exact absurd h (by simp)
    rw [if_neg hneg] at h ⊢
    by_cases hin : size ≤ inlineMax
    · rw [if_pos hin] at h ⊢
      by_cases hrd : size ≤ (r.length : Int)
      · rw [if_pos hrd] at h ⊢
        rcases index_insert_cases st.index id
            ⟨meta, some (r.take size.toNat), false, size, toUnix now, toUnix expAt⟩
          with hins | hins
        all_goals rw [hins] at h ⊢
        · refine ⟨⟨meta, some (r.take size.toNat), false, size, toUnix now, toUnix expAt⟩,
            ?_, ?_, ?_, ?_⟩
          · show alookup ((id, _) :: st.index) id = _
            rw [alookup_cons, if_pos rfl]
          · exact (decide_eq_false (not_lt.mpr hin)).symm
          · intro _
            exact ⟨rfl, rfl⟩
          · intro hgt
            exact absurd hgt (not_lt.mpr hin)
        · exact absurd h (by simp)
      · rw [if_neg hrd] at h; exact absurd h (by simp)
    · rw [if_neg hin] at h ⊢
      dsimp only at h ⊢
      rcases blob_write_fst_cases st.blobs id r size with hwr | hwr | hwr | hwr
      all_goals rw [hwr] at h ⊢
      · rcases index_insert_cases st.index id
            ⟨meta, none, true, size, toUnix now, toUnix expAt⟩
          with hins | hins
        all_goals rw [hins] at h ⊢
        · have hbs : (Blob.write st.blobs id r size).2 = (id, r.take size.toNat) :: st.blobs := by
            unfold Blob.write at hwr ⊢
            by_cases h1 : ¬ isValidID id
            · rw [if_pos h1] at hwr; exact absurd hwr (by simp)
            rw [if_neg h1] at hwr ⊢
            by_cases h2 : (alookup st.blobs id).isSome = true
            · rw [if_pos h2] at hwr; exact absurd hwr (by simp)
            rw [if_neg h2] at hwr ⊢
            by_cases h3 : size ≤ (r.length : Int)
            · rw [if_pos h3]
            · rw [if_neg h3] at hwr; exact absurd hwr (by simp)
          refine ⟨⟨meta, none, true, size, toUnix now, toUnix expAt⟩, ?_, ?_, ?_, ?_⟩
          · show alookup ((id, _) :: st.index) id = _
            rw [alookup_cons, if_pos rfl]
          · exact (decide_eq_true (not_le.mp hin)).symm
          · intro hle
            exact absurd hle hin
          · intro _
            refine ⟨rfl, ?_⟩
            show alookup (Blob.write st.blobs id r size).2 id = _
            rw [hbs, alookup_cons, if_pos rfl]
        · exact absurd h (by simp)
      all_goals exact absurd h (by simp)

/-- C5 witness: a negative size is rejected with the store untouched, and a
concrete external save places the payload in the blob directory. -/
theorem placement_policy_witness :
    Store.save 4 stEmpty sampleId ⟨1, [110]⟩ [5] (-1) 10 50
      = (.error .negativeSize, stEmpty) ∧
    (∃ row, alookup (Store.save 1 stEmpty sampleId ⟨1, [110]⟩ [5, 6] 2 10 50).2.index
        sampleId = some row ∧
      row.external = decide ((2 : Int) > 1) ∧
      ((2 : Int) ≤ 1 → row.inline = some ([5, 6].take (2 : Int).toNat) ∧
        (Store.save 1 stEmpty sampleId ⟨1, [110]⟩ [5, 6] 2 10 50).2.blobs = stEmpty.blobs) ∧
      ((2 : Int) > 1 → row.inline = none ∧
        alookup (Store.save 1 stEmpty sampleId ⟨1, [110]⟩ [5, 6] 2 10 50).2.blobs
          sampleId = some ([5, 6].take (2 : Int).toNat))) :=
  ⟨(placement_policy 4 stEmpty sampleId ⟨1, [110]⟩ [5] (-1) 10 50).1 (by decide),
   (placement_policy 1 stEmpty sampleId ⟨1, [110]⟩ [5, 6] 2 10 50).2 (by decide)⟩

/-- Lemma: `validateTTL` accepts exactly positive TTLs inside the inclusive bounds. -/
theorem validateTTL_ok_iff (ttl a b : Int) :
    validateTTL ttl a b = .ok () ↔ (0 < ttl ∧ a ≤ ttl ∧ ttl ≤ b) := by
  unfold validateTTL
  by_cases h1 : ttl ≤ 0
  · simp [h1]
  rw [if_neg h1]
  by_cases h2 : ttl < a
  · simp [h2]
  rw [if_neg h2]
  by_cases h3 : ttl > b
  · simp [h3]
  · simp [h3]
    omega

/-- Lemma: `validateTTL` either accepts or reports `TTLInvalid`. -/
theorem validateTTL_cases (ttl a b : Int) :
    validateTTL ttl a b = .ok () ∨ validateTTL ttl a b = .error .ttlInvalid := by
  unfold validateTTL
  by_cases h1 : ttl ≤ 0
  · rw [if_pos h1]; right; rfl
  rw [if_neg h1]
  by_cases h2 : ttl < a
  · rw [if_pos h2]; right; rfl
  rw [if_neg h2]
  by_cases h3 : ttl > b
  · rw [if_pos h3]; right; rfl
  · rw [if_neg h3]; left; rfl

/-- The possible outcomes of `Store.save` (TTL and size kinds never occur). -/
theorem save_fst_cases (inlineMax : Int) (st : StoreState) (id : GoStr) (meta : Meta)
    (r : List Nat) (size now expAt : Int) :
    (Store.save inlineMax st id meta r size now expAt).1 = .ok () ∨
    (Store.save inlineMax st id meta r size now expAt).1 = .error .negativeSize ∨
    (Store.save inlineMax st id meta r size now expAt).1 = .error .shortRead ∨
    (Store.save inlineMax st id meta r size now expAt).1 = .error .duplicateKey ∨
    (Store.save inlineMax st id meta r size now expAt).1 = .error .invalidBlobID ∨
    (Store.save inlineMax st id meta r size now expAt).1 = .error .blobExists := by
  unfold Store.save
  by_cases h0 : size < 0
  · rw [if_pos h0]; right; left; rfl
  rw [if_neg h0]
  by_cases h1 : size ≤ inlineMax
  · rw [if_pos h1]
    by_cases h2 : size ≤ (r.length : Int)
    · rw [if_pos h2]
      rcases index_insert_cases st.index id
          ⟨meta, some (r.take size.toNat), false, size, toUnix now, toUnix expAt⟩
        with h | h
      all_goals rw [h]
      · left; rfl
      · right; right; right; left; rfl
    · rw [if_neg h2]; right; right; left; rfl
  · rw [if_neg h1]
    dsimp only
    rcases blob_write_fst_cases st.blobs id r size with h | h | h | h
    all_goals rw [h]
    · rcases index_insert_cases st.index id
          ⟨meta, none, true, size, toUnix now, toUnix expAt⟩
        with h2 | h2
      all_goals rw [h2]
      · left; rfl
      · right; right; right; left; rfl
    · right; right; right; right; left; rfl
    · right; right; right; right; right; rfl
    · right; right; left; rfl

/-- A failing TTL validation short-circuits `createSecret` entirely. -/
theorem createSecret_of_validateTTL_error (svc : Service) (st : StoreState)
    (ct : List Nat) (size : Int) (version : Nat) (nonce : GoStr) (ttl : Int)
    (mintedId : GoStr) (now : Int) (e : Err)
    (hv : validateTTL ttl svc.minTTL svc.maxTTL = .error e) :
    Service.createSecret svc st ct size version nonce ttl mintedId now
      = (.error .ttlInvalid, st) := by
  unfold Service.createSecret
  rw [hv]

/-- A passing TTL validation reduces `createSecret` to the size check and the
store delegation. -/
theorem createSecret_of_validateTTL_ok (svc : Service) (st : StoreState)
    (ct : List Nat) (size : Int) (version : Nat) (nonce : GoStr) (ttl : Int)
    (mintedId : GoStr) (now : Int)
    (hv : validateTTL ttl svc.minTTL svc.maxTTL = .ok ()) :
    Service.createSecret svc st ct size version nonce ttl mintedId now =
      (if size ≤ 0 ∨ size > svc.maxBytes then
        ((.error .sizeExceeded : Except Err (GoStr × Int)), st)
       else
        match Store.save svc.inlineMax st mintedId ⟨version, nonce⟩ ct size now
            (now + ttl) with
        | (.ok _, st2) => (.ok (mintedId, now + ttl), st2)
        | (.error e2, st2) => (.error e2, st2)) := by
  unfold Service.createSecret
  rw [hv]

/-- A `TTLInvalid` result can only have come from the TTL validator. -/
theorem createSecret_ttlInvalid_validateTTL (svc : Service) (st : StoreState)
    (ct : List Nat) (size : Int) (version : Nat) (nonce : GoStr) (ttl : Int)
    (mintedId : GoStr) (now : Int)
    (h : (Service.createSecret svc st ct size version nonce ttl mintedId now).1
      = .error .ttlInvalid) :
    validateTTL ttl svc.minTTL svc.maxTTL = .error .ttlInvalid := by
  rcases validateTTL_cases ttl svc.minTTL svc.maxTTL with hv | hv
  · exfalso
    rw [createSecret_of_validateTTL_ok svc st ct size version nonce ttl mintedId now hv] at h
    by_cases hsz : size ≤ 0 ∨ size > svc.maxBytes
    · rw [if_pos hsz] at h
      simp at h
    · rw [if_neg hsz] at h
      cases hsv : Store.save svc.inlineMax st mintedId ⟨version, nonce⟩ ct size now
          (now + ttl) with
      | mk s1 s2 =>
        rw [hsv] at h
        cases s1 with
        | ok u => simp at h
        | error e =>
          have he : e = Err.ttlInvalid := by simpa using h
          subst he
          have hcs := save_fst_cases svc.inlineMax st mintedId ⟨version, nonce⟩ ct size
            now (now + ttl)
          rw [hsv] at hcs
          rcases hcs with hc | hc | hc | hc | hc | hc <;> simp at hc
  · exact hv

/-- Modelled from the spec's words (refinement target, not the code): a TTL
is valid when positive and, ONLY when both configured bounds are positive,
within `[minTTL, maxTTL]`. -/
def ttlValidSpec (ttl minTTL maxTTL : Int) : Prop :=
  0 < ttl ∧ ((0 < minTTL ∧ 0 < maxTTL) → (minTTL ≤ ttl ∧ ttl ≤ maxTTL))

/-- C6 counterexample: with non-positive bounds `minTTL = maxTTL = 0` and
`ttl = 1` the spec's conditional-bounds predicate deems the TTL valid, yet
`CreateSecret` fails with `TTLInvalid` — `ValidateTTL` applies the bounds
unconditionally. -/
theorem ttl_validation_counterexample :
    ttlValidSpec 1 0 0 ∧
    (Service.createSecret ⟨100, 0, 0, 4⟩ stEmpty [7] 1 1 [110] 1 sampleId 10).1
      = .error .ttlInvalid := by
  constructor
  · exact ⟨by norm_num, fun h => absurd h.1 (by norm_num)⟩
  · decide

/-- C6 (amended): `CreateSecret` fails with `TTLInvalid` exactly when
`¬(0 < ttl ∧ minTTL ≤ ttl ≤ maxTTL)` — the bounds apply for ALL configured
values, with no positivity carve-out — and on that failure the store state is
untouched (no ID is used, no store call happens).  Both endpoints
`ttl = minTTL` and `ttl = maxTTL` are accepted by the characterization. -/
theorem ttl_validation :
    ∀ (svc : Service) (st : StoreState) (ct : List Nat) (size : Int) (version : Nat)
      (nonce : GoStr) (ttl : Int) (mintedId : GoStr) (now : Int),
      ((Service.createSecret svc st ct size version nonce ttl mintedId now).1
          = .error .ttlInvalid ↔
        ¬(0 < ttl ∧ svc.minTTL ≤ ttl ∧ ttl ≤ svc.maxTTL)) ∧
      ((Service.createSecret svc st ct size version nonce ttl mintedId now).1
          = .error .ttlInvalid →
        (Service.createSecret svc st ct size version nonce ttl mintedId now).2 = st) := by
  intro svc st ct size version nonce ttl mintedId now
  constructor
  · constructor
    · intro h hvalid
      have hok : validateTTL ttl svc.minTTL svc.maxTTL = .ok () :=
        (validateTTL_ok_iff ttl svc.minTTL svc.maxTTL).mpr hvalid
      have herr := createSecret_ttlInvalid_validateTTL svc st ct size version nonce ttl
        mintedId now h
      rw [hok] at herr
      exact Except.noConfusion herr
    · intro hnv
      have hne : validateTTL ttl svc.minTTL svc.maxTTL ≠ .ok () := fun hok =>
        hnv ((validateTTL_ok_iff ttl svc.minTTL svc.maxTTL).mp hok)
      rcases validateTTL_cases ttl svc.minTTL svc.maxTTL with hv | hv
      · exact absurd hv hne
      · rw [createSecret_of_validateTTL_error svc st ct size version nonce ttl
          mintedId now _ hv]
  · intro h
    have hv := createSecret_ttlInvalid_validateTTL svc st ct size version nonce ttl
      mintedId now h
    rw [createSecret_of_validateTTL_error svc st ct size version nonce ttl
      mintedId now _ hv]

/-- C6 witness: a zero TTL is rejected with `TTLInvalid` at concrete inputs. -/
theorem ttl_validation_witness :
    (Service.createSecret ⟨100, 2, 10, 4⟩ stEmpty [7] 1 1 [110] 0 sampleId 50).1
      = .error .ttlInvalid :=
  (ttl_validation ⟨100, 2, 10, 4⟩ stEmpty [7] 1 1 [110] 0 sampleId 50).1.mpr
    (by decide)

/-- C7: size validation.  With a passing TTL check, `CreateSecret` fails with
`SizeExceeded` exactly when `size ≤ 0 ∨ size > maxBytes` (so `size = 0` is
rejected, `size = maxBytes` accepted, `size = maxBytes + 1` rejected), and
whenever the size is out of range the store state is untouched — the failure
happens before any store call, for every minted id. -/
theorem size_validation :
    ∀ (svc : Service) (st : StoreState) (ct : List Nat) (size : Int) (version : Nat)
      (nonce : GoStr) (ttl : Int) (mintedId : GoStr) (now : Int),
      ((Service.createSecret svc st ct size version nonce ttl mintedId now).1
          = .error .sizeExceeded ↔
        (validateTTL ttl svc.minTTL svc.maxTTL = .ok () ∧
          (size ≤ 0 ∨ size > svc.maxBytes))) ∧
      ((size ≤ 0 ∨ size > svc.maxBytes) →
        (Service.createSecret svc st ct size version nonce ttl mintedId now).2 = st) := by
  intro svc st ct size version nonce ttl mintedId now
  constructor
  · constructor
    · intro h
      rcases validateTTL_cases ttl svc.minTTL svc.maxTTL with hv | hv
      · refine ⟨hv, ?_⟩
        by_contra hsz
        rw [createSecret_of_validateTTL_ok svc st ct size version nonce ttl
          mintedId now hv, if_neg hsz] at h
        cases hsv : Store.save svc.inlineMax st mintedId ⟨version, nonce⟩ ct size now
            (now + ttl) with
        | mk s1 s2 =>
          rw [hsv] at h
          cases s1 with
          | ok u => simp at h
          | error e =>
            have he : e = Err.sizeExceeded := by simpa using h
            subst he
            have hcs := save_fst_cases svc.inlineMax st mintedId ⟨version, nonce⟩ ct
              size now (now + ttl)
            rw [hsv] at hcs
            rcases hcs with hc | hc | hc | hc | hc | hc <;> simp at hc
      · rw [createSecret_of_validateTTL_error svc st ct size version nonce ttl
          mintedId now _ hv] at h
        simp at h
    · rintro ⟨hok, hsz⟩
      rw [createSecret_of_validateTTL_ok svc st ct size version nonce ttl
        mintedId now hok, if_pos hsz]
  · intro hsz
    rcases validateTTL_cases ttl svc.minTTL svc.maxTTL with hv | hv
    · rw [createSecret_of_validateTTL_ok svc st ct size version nonce ttl
        mintedId now hv, if_pos hsz]
    · rw [createSecret_of_validateTTL_error svc st ct size version nonce ttl
        mintedId now _ hv]

/-- C7 witness: with `maxBytes = 3`, size 4 is rejected, size 3 accepted,
size 0 rejected — at concrete inputs. -/
theorem size_validation_witness :
    (Service.createSecret ⟨3, 1, 10, 100⟩ stEmpty [1, 2, 3, 4] 4 1 [110] 5 sampleId 50).1
      = .error .sizeExceeded ∧
    ¬ (Service.createSecret ⟨3, 1, 10, 100⟩ stEmpty [1, 2, 3] 3 1 [110] 5 sampleId 50).1
      = .error .sizeExceeded ∧
    (Service.createSecret ⟨3, 1, 10, 100⟩ stEmpty [] 0 1 [110] 5 sampleId 50).1
      = .error .sizeExceeded :=
  ⟨(size_validation ⟨3, 1, 10, 100⟩ stEmpty [1, 2, 3, 4] 4 1 [110] 5 sampleId 50).1.mpr
      ⟨by decide, by decide⟩,
   fun h => absurd
     ((size_validation ⟨3, 1, 10, 100⟩ stEmpty [1, 2, 3] 3 1 [110] 5 sampleId 50).1.mp h).2
     (by decide),
   (size_validation ⟨3, 1, 10, 100⟩ stEmpty [] 0 1 [110] 5 sampleId 50).1.mpr
     ⟨by decide, by decide⟩⟩

/-- A successful `Blob.write` pins down its preconditions and the new state. -/
theorem blob_write_ok (bs : BlobState) (id : GoStr) (r : List Nat) (size : Int)
    (h : (Blob.write bs id r size).1 = .ok ()) :
    isValidID id = true ∧ (alookup bs id).isSome = false ∧
    size ≤ (r.length : Int) ∧
    (Blob.write bs id r size).2 = (id, r.take size.toNat) :: bs := by
  unfold Blob.write at h ⊢
  by_cases h1 : ¬ isValidID id
  · rw [if_pos h1] at h; exact absurd h (by simp)
  rw [if_neg h1] at h ⊢
  by_cases h2 : (alookup bs id).isSome = true
  · rw [if_pos h2] at h; exact absurd h (by simp)
  rw [if_neg h2] at h ⊢
  by_cases h3 : size ≤ (r.length : Int)
  · rw [if_pos h3] at h ⊢
    exact ⟨by simpa using h1, by simpa using h2, h3, rfl⟩
  · rw [if_neg h3] at h; exact absurd h (by simp)

/-- A failing `Blob.write` leaves the blob directory untouched. -/
theorem blob_write_error_state (bs : BlobState) (id : GoStr) (r : List Nat)
    (size : Int) (e : Err) (h : (Blob.write bs id r size).1 = .error e) :
    (Blob.write bs id r size).2 = bs := by
  unfold Blob.write at h ⊢
  by_cases h1 : ¬ isValidID id
  · rw [if_pos h1]
  · rw [if_neg h1] at h ⊢
    by_cases h2 : (alookup bs id).isSome = true
    · rw [if_pos h2]
    · rw [if_neg h2] at h ⊢
      by_cases h3 : size ≤ (r.length : Int)
      · rw [if_pos h3] at h; exact absurd h (by simp)
      · rw [if_neg h3]

/-- C8 counterexample: `Write` with `size = -1` SUCCEEDS — `io.CopyN` with a
negative count copies nothing and reports no error — and the created file
holds 0 bytes, not `size` bytes, falsifying the claim's unconditional "on
success the file holds exactly size bytes". -/
theorem blob_write_negative_counterexample :
    (Blob.write [] sampleId [1, 2] (-1)).1 = .ok () ∧
    alookup (Blob.write [] sampleId [1, 2] (-1)).2 sampleId = some [] ∧
    ¬ ((([] : List Nat).length : Int) = -1) := by
  decide

/-- C8 (amended): blob write atomicity.  `Write(id, reader, size)` is
create-exclusive (an existing blob makes it fail with the state untouched),
fails when the reader yields fewer than `size` bytes, leaves no partial file
behind on any error, and on success stores the first `max(size, 0)` reader
bytes under the id — exactly `size` bytes whenever `0 ≤ size` (a negative
`size` succeeds vacuously, leaving an empty file). -/
theorem blob_write_atomic :
    ∀ (bs : BlobState) (id : GoStr) (r : List Nat) (size : Int),
      ((alookup bs id).isSome = true → isValidID id = true →
        Blob.write bs id r size = (.error .blobExists, bs)) ∧
      ((r.length : Int) < size →
        (∃ e, (Blob.write bs id r size).1 = .error e) ∧
        (Blob.write bs id r size).2 = bs) ∧
      (∀ e, (Blob.write bs id r size).1 = .error e →
        (Blob.write bs id r size).2 = bs) ∧
      ((Blob.write bs id r size).1 = .ok () →
        alookup (Blob.write bs id r size).2 id = some (r.take size.toNat) ∧
        (0 ≤ size → ((r.take size.toNat).length : Int) = size)) := by
  intro bs id r size
  refine ⟨?_, ?_, fun e he => blob_write_error_state bs id r size e he, ?_⟩
  · intro hsome hvalid
    unfold Blob.write
    rw [if_neg (by simp [hvalid]), if_pos hsome]
  · intro hlt
    have herr : ∃ e, (Blob.write bs id r size).1 = .error e := by
      rcases blob_write_fst_cases bs id r size with h | h | h | h
      · have hok := blob_write_ok bs id r size h
        exact absurd hok.2.2.1 (not_le.mpr hlt)
      · exact ⟨_, h⟩
      · exact ⟨_, h⟩
      · exact ⟨_, h⟩
    obtain ⟨e, he⟩ := herr
    exact ⟨⟨e, he⟩, blob_write_error_state bs id r size e he⟩
  · intro h
    have hok := blob_write_ok bs id r size h
    refine ⟨?_, ?_⟩
    · rw [hok.2.2.2, alookup_cons, if_pos rfl]
    · intro hnn
      have hle : size ≤ (r.length : Int) := hok.2.2.1
      rw [List.length_take]
      have hto : size.toNat ≤ r.length := by omega
      rw [Nat.min_eq_left hto]
      omega

/-- C8 witness: duplicate write rejected, short read rejected with no partial
file, successful non-negative write stores exactly the requested bytes. -/
theorem blob_write_atomic_witness :
    Blob.write [(sampleId, [9])] sampleId [1, 2] 2
      = (.error .blobExists, [(sampleId, [9])]) ∧
    (∃ e, (Blob.write [] sampleId [1] 5).1 = .error e) ∧
    (Blob.write [] sampleId [1] 5).2 = [] ∧
    (alookup (Blob.write [] sampleId [1, 2, 3] 2).2 sampleId
        = some ([1, 2, 3].take (2 : Int).toNat) ∧
      ((0 : Int) ≤ 2 → (([1, 2, 3].take (2 : Int).toNat).length : Int) = 2)) :=
  ⟨(blob_write_atomic [(sampleId, [9])] sampleId [1, 2] 2).1 (by decide) (by decide),
   ((blob_write_atomic [] sampleId [1] 5).2.1 (by decide)).1,
   ((blob_write_atomic [] sampleId [1] 5).2.1 (by decide)).2,
   (blob_write_atomic [] sampleId [1, 2, 3] 2).2.2.2 (by decide)⟩

/-- One hex digit is always a valid id byte. -/
theorem validIDByte_hexDigit (n : Nat) (h : n < 16) :
    validIDByte (hexDigit n) = true := by
  unfold validIDByte hexDigit
  by_cases h10 : n < 10
  · rw [if_pos h10]
    simp only [Bool.or_eq_true, Bool.and_eq_true, decide_eq_true_eq]
    omega
  · rw [if_neg h10]
    simp only [Bool.or_eq_true, Bool.and_eq_true, decide_eq_true_eq]
    omega

/-- Hex encoding doubles the length. -/
theorem hexEncode_length (bytes : List Nat) :
    (hexEncode bytes).length = 2 * bytes.length := by
  induction bytes with
  | nil => rfl
  | cons b bs ih =>
    simp only [hexEncode, List.length_cons, ih]
    omega

/-- Every byte of a hex encoding is a valid id byte. -/
theorem hexEncode_all_valid (bytes : List Nat) (h : ∀ b ∈ bytes, b < 256) :
    ∀ c ∈ hexEncode bytes, validIDByte c = true := by
  induction bytes with
  | nil => intro c hc; simp [hexEncode] at hc
  | cons b bs ih =>
    intro c hc
    simp only [hexEncode, List.mem_cons] at hc
    rcases hc with rfl | rfl | hc
    · refine validIDByte_hexDigit _ ?_
      have hb := h b (by simp)
      omega
    · exact validIDByte_hexDigit _ (by omega)
    · exact ih (fun x hx => h x (by simp [hx])) c hc

/-- Lemma: `isValidID` in terms of length and byte sets. -/
theorem isValidID_iff (s : GoStr) :
    isValidID s = true ↔
      (s.length = 32 ∧ ∀ c ∈ s, (48 ≤ c ∧ c ≤ 57) ∨ (97 ≤ c ∧ c ≤ 102)) := by
  unfold isValidID validIDByte
  simp [List.all_eq_true]

/-- Lemma: `parseID` succeeds exactly on valid ids. -/
theorem parseID_ok_iff (s : GoStr) :
    (∃ v, parseID s = .ok v) ↔ isValidID s = true := by
  unfold parseID
  by_cases h : isValidID s = true
  · rw [if_pos h]
    exact ⟨fun _ => h, fun _ => ⟨s, rfl⟩⟩
  · rw [if_neg h]
    constructor
    · rintro ⟨v, hv⟩
      exact Except.noConfusion hv
    · intro hv
      exact absurd hv h

/-- C9: ID syntactic closure.  `ParseID(s)` succeeds iff `s` has exactly 32
bytes, each in `[0-9a-f]` (uppercase rejected); parsing the lowercase hex
encoding of any 16 random bytes always succeeds; `SecretID.Valid` agrees with
`ParseID` on every string. -/
theorem id_syntactic_closure :
    (∀ s : GoStr, (∃ v, parseID s = .ok v) ↔
      (s.length = 32 ∧ ∀ c ∈ s, (48 ≤ c ∧ c ≤ 57) ∨ (97 ≤ c ∧ c ≤ 102))) ∧
    (∀ bytes : List Nat, bytes.length = 16 → (∀ b ∈ bytes, b < 256) →
      parseID (hexEncode bytes) = .ok (hexEncode bytes)) ∧
    (∀ s : GoStr, secretIDValid s = true ↔ (∃ v, parseID s = .ok v)) := by
  refine ⟨?_, ?_, ?_⟩
  · intro s
    rw [parseID_ok_iff, isValidID_iff]
  · intro bytes hlen h256
    have hvalid : isValidID (hexEncode bytes) = true := by
      apply (isValidID_iff (hexEncode bytes)).mpr
      constructor
      · rw [hexEncode_length, hlen]
      · intro c hc
        have hv := hexEncode_all_valid bytes h256 c hc
        unfold validIDByte at hv
        simpa using hv
    unfold parseID
    rw [if_pos hvalid]
  · intro s
    unfold secretIDValid
    rw [parseID_ok_iff]

/-- C9 witness: the hex encoding of sixteen 0xab bytes parses successfully. -/
theorem id_syntactic_closure_witness :
    parseID (hexEncode (List.replicate 16 171))
      = .ok (hexEncode (List.replicate 16 171)) :=
  id_syntactic_closure.2.1 (List.replicate 16 171) (by decide) (by decide)

end Gone
